import Mathlib

/-!
Shallow embedding of `src/evident/effect_size.py`.

The module computes pairwise effect-size statistics between groups of
samples.  Its pieces:

* `_generate_betas` / `_generate_alphas` — task generators that enumerate the
  cross product of measurement sources and mapping columns, hash the
  descriptor fields (`hashlib.md5` over the `'.'`-joined fields) into an
  artifact path, and yield a task only when the path is absent or overwrite
  is set;
* `_process_column` — the comparator: partitions the grouping column by
  value (pandas `groupby`, sorted keys), runs the selected statistical
  backend on every unordered pair of groups, drops pairs with NaN
  p-value/statistic, pools p-values as `len(qip) * np.min(qip)`, assembles
  the results dictionary and pickles it, returning `[]`;
* `effect_size` — mode dispatch: beta (distance matrices) when the beta
  path list is truthy, else alpha.

External collaborators (pandas, scipy, skbio) are modelled as parameters:
the statistical test backends are opaque functions returning
(p-value, statistic, x-values, y-values) where a missing `Option` value
models NaN; numeric values are rationals.  `hashlib.md5` is embedded
concretely below.  The filesystem is a predicate `String → Bool` giving
path existence.
-/

namespace Evident

/-! ### MD5 (embedding of the `hashlib.md5(...).hexdigest()` collaborator) -/

/-- Reduce modulo 2^32 (32-bit machine arithmetic). -/
def m32 (x : Nat) : Nat := x % 4294967296

/-- Bitwise complement on 32-bit values. -/
def mnot (x : Nat) : Nat := Nat.xor x 4294967295

/-- 32-bit left rotation. -/
def rotl (x s : Nat) : Nat :=
  Nat.lor (m32 (Nat.shiftLeft x s)) (Nat.shiftRight x (32 - s))

def md5F (b c d : Nat) : Nat := Nat.lor (Nat.land b c) (Nat.land (mnot b) d)
def md5G (b c d : Nat) : Nat := Nat.lor (Nat.land d b) (Nat.land (mnot d) c)
def md5H (b c d : Nat) : Nat := Nat.xor (Nat.xor b c) d
def md5I (b c d : Nat) : Nat := Nat.xor c (Nat.lor b (mnot d))

/-- The 64 MD5 sine-derived constants. -/
def md5K : List Nat :=
  [0xd76aa478, 0xe8c7b756, 0x242070db, 0xc1bdceee,
   0xf57c0faf, 0x4787c62a, 0xa8304613, 0xfd469501,
   0x698098d8, 0x8b44f7af, 0xffff5bb1, 0x895cd7be,
   0x6b901122, 0xfd987193, 0xa679438e, 0x49b40821,
   0xf61e2562, 0xc040b340, 0x265e5a51, 0xe9b6c7aa,
   0xd62f105d, 0x02441453, 0xd8a1e681, 0xe7d3fbc8,
   0x21e1cde6, 0xc33707d6, 0xf4d50d87, 0x455a14ed,
   0xa9e3e905, 0xfcefa3f8, 0x676f02d9, 0x8d2a4c8a,
   0xfffa3942, 0x8771f681, 0x6d9d6122, 0xfde5380c,
   0xa4beea44, 0x4bdecfa9, 0xf6bb4b60, 0xbebfbc70,
   0x289b7ec6, 0xeaa127fa, 0xd4ef3085, 0x04881d05,
   0xd9d4d039, 0xe6db99e5, 0x1fa27cf8, 0xc4ac5665,
   0xf4292244, 0x432aff97, 0xab9423a7, 0xfc93a039,
   0x655b59c3, 0x8f0ccc92, 0xffeff47d, 0x85845dd1,
   0x6fa87e4f, 0xfe2ce6e0, 0xa3014314, 0x4e0811a1,
   0xf7537e82, 0xbd3af235, 0x2ad7d2bb, 0xeb86d391]

/-- The 64 per-round left-rotation amounts. -/
def md5S : List Nat :=
  [7, 12, 17, 22, 7, 12, 17, 22, 7, 12, 17, 22, 7, 12, 17, 22,
   5, 9, 14, 20, 5, 9, 14, 20, 5, 9, 14, 20, 5, 9, 14, 20,
   4, 11, 16, 23, 4, 11, 16, 23, 4, 11, 16, 23, 4, 11, 16, 23,
   6, 10, 15, 21, 6, 10, 15, 21, 6, 10, 15, 21, 6, 10, 15, 21]

/-- Little-endian byte encoding of `n` on `k` bytes. -/
def leBytes : Nat → Nat → List Nat
  | 0, _ => []
  | k + 1, n => (n % 256) :: leBytes k (n / 256)

/-- MD5 padding: append `0x80`, zeros to 56 mod 64, then the 64-bit
little-endian bit length. -/
def md5pad (msg : List Nat) : List Nat :=
  let len := msg.length
  let zeros := (55 + 64 - (len % 64)) % 64
  msg ++ [128] ++ List.replicate zeros 0 ++
    leBytes 8 ((8 * len) % 18446744073709551616)

/-- Split a byte list into 64-byte blocks. -/
def chunk64 (l : List Nat) : List (List Nat) :=
  if h : l = [] then [] else
    (l.take 64) :: chunk64 (l.drop 64)
termination_by l.length
decreasing_by
  simp only [List.length_drop]
  exact Nat.sub_lt (List.length_pos.mpr h) (by decide)

/-- The `j`-th little-endian 32-bit word of a 64-byte block. -/
def wordAt (block : List Nat) (j : Nat) : Nat :=
  block.getD (4 * j) 0 + 256 * block.getD (4 * j + 1) 0 +
    65536 * block.getD (4 * j + 2) 0 + 16777216 * block.getD (4 * j + 3) 0

/-- One of the 64 MD5 rounds. -/
def md5Round (M : List Nat) (st : Nat × Nat × Nat × Nat) (i : Nat) :
    Nat × Nat × Nat × Nat :=
  let (a, b, c, d) := st
  let fg : Nat × Nat :=
    if i < 16 then (md5F b c d, i)
    else if i < 32 then (md5G b c d, (5 * i + 1) % 16)
    else if i < 48 then (md5H b c d, (3 * i + 5) % 16)
    else (md5I b c d, (7 * i) % 16)
  let f2 := m32 (fg.1 + a + md5K.getD i 0 + M.getD fg.2 0)
  (d, m32 (b + rotl f2 (md5S.getD i 0)), b, c)

/-- Process one 64-byte block. -/
def md5Block (st : Nat × Nat × Nat × Nat) (block : List Nat) :
    Nat × Nat × Nat × Nat :=
  let M := (List.range 16).map (wordAt block)
  let r := (List.range 64).foldl (md5Round M) st
  (m32 (st.1 + r.1), m32 (st.2.1 + r.2.1), m32 (st.2.2.1 + r.2.2.1),
   m32 (st.2.2.2 + r.2.2.2))

def md5Init : Nat × Nat × Nat × Nat :=
  (0x67452301, 0xefcdab89, 0x98badcfe, 0x10325476)

/-- MD5 digest (16 bytes) of a byte list. -/
def md5Bytes (msg : List Nat) : List Nat :=
  let r := (chunk64 (md5pad msg)).foldl md5Block md5Init
  leBytes 4 r.1 ++ leBytes 4 r.2.1 ++ leBytes 4 r.2.2.1 ++ leBytes 4 r.2.2.2

def hexDigit (n : Nat) : Char :=
  if n < 10 then Char.ofNat (48 + n) else Char.ofNat (87 + n)

def byteHex (b : Nat) : String :=
  String.mk [hexDigit (b / 16), hexDigit (b % 16)]

/-- `hashlib.md5(s.encode()).hexdigest()`. -/
def md5hex (s : String) : String :=
  String.join ((md5Bytes (s.toUTF8.toList.map (fun b => b.toNat))).map byteHex)

/-! ### Task identifiers and artifact paths -/

/-- `os.path.basename`: the component after the last separator. -/
def basename (p : String) : String := (p.splitOn "/").getLastD p

/-- `hashlib.md5('.'.join(finfo).encode()).hexdigest()` — the task
identifier computed by both generators. -/
def taskName (finfo : List String) : String :=
  md5hex (String.intercalate "." finfo)

/-- `join(output, '%s.pickle' % name)` for a directory path without a
trailing separator. -/
def artifactPath (output : String) (finfo : List String) : String :=
  output ++ "/" ++ taskName finfo ++ ".pickle"

/-! ### Data model -/

/-- A column of a table read with `dtype=str` and `na_values`: sample
identifier to optional string value (`none` models NaN / missing). -/
abbrev Series := List (String × Option String)

/-- A mapping or alpha table after `set_index('#SampleID')`: column name to
column series, in column order. -/
abbrev TableDF := List (String × Series)

/-- `series.dropna()`: keep the (identifier, value) pairs whose value is
present. -/
def dropnaS (s : Series) : List (String × String) :=
  s.filterMap (fun p => p.2.map (fun v => (p.1, v)))

/-- A statistical backend's return value `(pval, stat, xvals, yvals)`;
`none` in the first two components models NaN. -/
structure TestRes where
  pval : Option ℚ
  stat : Option ℚ
  xval : List ℚ
  yval : List ℚ
deriving DecidableEq, Repr

/-- The measurement data handed to `_process_column`: a beta distance
matrix (opaque, type `δ`) or a coerced numeric alpha column. -/
inductive MData (δ : Type) where
  | betaD (d : δ)
  | alphaD (s : List (String × Option ℚ))
deriving DecidableEq, Repr

/-- One row of `pairwise_comparisons`:
`(pval, x, len(xval), var(xval), mean(xval), y, len(yval), var(yval), mean(yval))`. -/
structure Comparison where
  pval : ℚ
  xlabel : String
  xlen : ℕ
  xvar : Option ℚ
  xmean : Option ℚ
  ylabel : String
  ylen : ℕ
  yvar : Option ℚ
  ymean : Option ℚ
deriving DecidableEq, Repr

/-- The pickled `results` dictionary; the two constructors are the two
key layouts chosen by `if alphas:` in `_process_column`. -/
inductive Results where
  | alphaFmt (div_file alpha_metric mapping_file mapping_col : String)
      (pairwise_comparisons : List Comparison) (pooled_pval : Option ℚ)
  | betaFmt (div_file mapping_file mapping_col permuations : String)
      (pairwise_comparisons : List Comparison) (pooled_pval : Option ℚ)
deriving DecidableEq, Repr

def Results.isAlphaFmt : Results → Bool
  | .alphaFmt _ _ _ _ _ _ => true
  | .betaFmt _ _ _ _ _ _ => false

def Results.pooledOf : Results → Option ℚ
  | .alphaFmt _ _ _ _ _ p => p
  | .betaFmt _ _ _ _ _ p => p

def Results.comparisonsOf : Results → List Comparison
  | .alphaFmt _ _ _ _ c _ => c
  | .betaFmt _ _ _ _ c _ => c

/-! ### Task generators -/

/-- A task yielded by `_generate_betas`: the tuple
`(bf, mf[col].dropna(), fname, finfo)`. -/
structure BetaTask (δ : Type) where
  data : δ
  cseries : List (String × String)
  fname : String
  finfo : List String

/-- A task yielded by `_generate_alphas`: the tuple
`(pd.to_numeric(af[ac], errors='coerce'), mf[col].dropna(), fname, finfo)`;
`coerce` models the numeric parse, unparseable values becoming NaN. -/
structure AlphaTask where
  data : List (String × Option ℚ)
  cseries : List (String × String)
  fname : String
  finfo : List String

/-- `_generate_betas`.  `fsEx` is path existence on the filesystem. -/
def generateBetas {δ : Type} (fsEx : String → Bool) (overwrite : Bool)
    (output : String) (permutations : Nat)
    (betas : List (String × δ)) (mappings : List (String × TableDF)) :
    List (BetaTask δ) :=
  betas.flatMap (fun b =>
    mappings.flatMap (fun m =>
      m.2.filterMap (fun cpair =>
        let finfo := [basename b.1, basename m.1, cpair.1, toString permutations]
        let fname := artifactPath output finfo
        if !fsEx fname || overwrite then
          some ⟨b.2, dropnaS cpair.2, fname, finfo⟩
        else none)))

/-- `_generate_alphas`. -/
def generateAlphas (coerce : String → Option ℚ) (fsEx : String → Bool)
    (overwrite : Bool) (output : String)
    (alphas : List (String × TableDF)) (mappings : List (String × TableDF)) :
    List AlphaTask :=
  alphas.flatMap (fun a =>
    a.2.flatMap (fun acp =>
      mappings.flatMap (fun m =>
        m.2.filterMap (fun cpair =>
          let finfo := [basename a.1, acp.1, basename m.1, cpair.1]
          let fname := artifactPath output finfo
          if !fsEx fname || overwrite then
            some ⟨acp.2.map (fun p => (p.1, p.2.bind coerce)),
                  dropnaS cpair.2, fname, finfo⟩
          else none))))

/-! ### The comparator `_process_column` -/

/-- Lexicographic less-or-equal on character lists (Python compares
strings by code point, left to right). -/
def clLe : List Char → List Char → Bool
  | [], _ => true
  | _ :: _, [] => false
  | a :: as, b :: bs =>
    if a < b then true else if b < a then false else clLe as bs

/-- Python's `<=` on strings. -/
def sLe (a b : String) : Prop := clLe a.data b.data = true

/-- Python's `<` on strings. -/
def sLt (a b : String) : Prop := sLe a b ∧ a ≠ b

instance : DecidableRel sLe := fun a b => by unfold sLe; infer_instance

instance : DecidableRel sLt := fun a b => by unfold sLt; exact instDecidableAnd

/-- The group keys of `cseries.groupby(cseries)`: pandas sorts the
distinct values ascending (Python string order). -/
def groupKeys (cs : List (String × String)) : List String :=
  List.insertionSort sLe (cs.map Prod.snd).dedup

/-- The sample identifiers of the group with value `k` (the index of
`values[k]`). -/
def groupIds (cs : List (String × String)) (k : String) : List String :=
  (cs.filter (fun p => p.2 == k)).map Prod.fst

/-- `itertools.combinations(keys, 2)` in source order. -/
def combos2 {α : Type} : List α → List (α × α)
  | [] => []
  | x :: xs => xs.map (fun y => (x, y)) ++ combos2 xs

/-- `np.mean` (NaN, i.e. `none`, on an empty list). -/
def npMean (l : List ℚ) : Option ℚ :=
  if l.isEmpty then none else some (l.sum / l.length)

/-- `np.var`, population variance (NaN on an empty list). -/
def npVar (l : List ℚ) : Option ℚ :=
  if l.isEmpty then none else
    some (((l.map (fun x => (x - l.sum / l.length) ^ 2)).sum) / l.length)

/-- `np.min` of the p-value list, defaulting on the empty list (never used
there: `_process_column` guards with `if qip:`). -/
def npMin (l : List ℚ) : ℚ := (l.min?).getD 0

/-- The record appended for a surviving pair `(x, y)` with backend result
`r`. -/
def mkComp (xy : String × String) (r : TestRes) : Comparison :=
  { pval := r.pval.getD 0
    xlabel := xy.1, xlen := r.xval.length
    xvar := npVar r.xval, xmean := npMean r.xval
    ylabel := xy.2, ylen := r.yval.length
    yvar := npVar r.yval, ymean := npMean r.yval }

/-- The loop body of `_process_column`: run the backend on the pair, skip
it when p-value or statistic is NaN, else append to `qip` and to
`pairwise_comparisons`. -/
def scanStep (method : List String → List String → TestRes)
    (cs : List (String × String)) (acc : List ℚ × List Comparison)
    (xy : String × String) : List ℚ × List Comparison :=
  let r := method (groupIds cs xy.1) (groupIds cs xy.2)
  if r.pval.isNone || r.stat.isNone then acc
  else (acc.1 ++ [r.pval.getD 0], acc.2 ++ [mkComp xy r])

/-- The pairwise loop: `qip` and `pairwise_comparisons` after iterating
over `combinations(values.keys(), 2)`. -/
def pairScan (method : List String → List String → TestRes)
    (cs : List (String × String)) : List ℚ × List Comparison :=
  (combos2 (groupKeys cs)).foldl (scanStep method cs) ([], [])

/-- `_process_column`.  `alphasT`/`betasT` are the truthiness of the
`alphas`/`betas` arguments; `betaM`/`alphaM` embed `_beta`/`_alpha` (the
scipy/skbio backends are opaque); the first component is the pickle write
`(fname, results)` and the second the Python return value `[]`. -/
def processColumn {δ : Type} (alphasT betasT : Bool) (permutations : Nat)
    (betaM : Nat → MData δ → List String → List String → TestRes)
    (alphaM : MData δ → List String → List String → TestRes)
    (data : MData δ) (cseries : List (String × String))
    (fname : String) (finfo : List String) :
    (String × Results) × List Results :=
  let method := if betasT then betaM permutations data else alphaM data
  let qc := pairScan method cseries
  let pooled : Option ℚ :=
    if qc.1.isEmpty then none else some ((qc.1.length : ℚ) * npMin qc.1)
  let results :=
    if alphasT then
      Results.alphaFmt (finfo.getD 0 "") (finfo.getD 1 "") (finfo.getD 2 "")
        (finfo.getD 3 "") qc.2 pooled
    else
      Results.betaFmt (finfo.getD 0 "") (finfo.getD 1 "") (finfo.getD 2 "")
        (finfo.getD 3 "") qc.2 pooled
  ((fname, results), [])

/-! ### `effect_size` — mode dispatch and executor -/

/-- `effect_size`: beta mode when the beta path list is truthy, else alpha
mode; each task goes through `_process_column`; the result is the list of
per-task values (pickle write, return value).  The `alphas`/`betas`
arguments of `_process_column` keep the truthiness they have in the
source: in beta mode `alphas` is passed through unloaded. -/
def effectSize {δ : Type} (fsEx : String → Bool) (overwrite : Bool)
    (output : String) (permutations : Nat) (coerce : String → Option ℚ)
    (betaM : Nat → MData δ → List String → List String → TestRes)
    (alphaM : MData δ → List String → List String → TestRes)
    (mappings : List (String × TableDF))
    (alphas : List (String × TableDF)) (betas : List (String × δ)) :
    List ((String × Results) × List Results) :=
  if !betas.isEmpty then
    (generateBetas fsEx overwrite output permutations betas mappings).map
      (fun t => processColumn (!alphas.isEmpty) (!betas.isEmpty) permutations
        betaM alphaM (MData.betaD t.data) t.cseries t.fname t.finfo)
  else
    (generateAlphas coerce fsEx overwrite output alphas mappings).map
      (fun t => processColumn (!alphas.isEmpty) (!betas.isEmpty) permutations
        betaM alphaM (MData.alphaD t.data) t.cseries t.fname t.finfo)

/-! ### Derived definitions used by the lemmas -/

/-- The contribution of one pair in the loop: `none` when the backend's
p-value or statistic is NaN, else the appended `Comparison`. -/
def pairResult (method : List String → List String → TestRes)
    (cs : List (String × String)) (xy : String × String) : Option Comparison :=
  let r := method (groupIds cs xy.1) (groupIds cs xy.2)
  if r.pval.isNone || r.stat.isNone then none else some (mkComp xy r)

/-- Lexicographic strict order on label pairs. -/
def lexLt (p q : String × String) : Prop :=
  sLt p.1 q.1 ∨ (p.1 = q.1 ∧ sLt p.2 q.2)

/-- The candidate task of one `(beta, mapping, column)` combination. -/
def betaTaskOf {δ : Type} (output : String) (perm : Nat) (b : String × δ)
    (m : String × TableDF) (c : String × Series) : BetaTask δ :=
  ⟨b.2, dropnaS c.2,
   artifactPath output [basename b.1, basename m.1, c.1, toString perm],
   [basename b.1, basename m.1, c.1, toString perm]⟩

/-- The candidate task of one `(alpha, alpha column, mapping, column)`
combination. -/
def alphaTaskOf (coerce : String → Option ℚ) (output : String)
    (a : String × TableDF) (acp : String × Series) (m : String × TableDF)
    (c : String × Series) : AlphaTask :=
  ⟨acp.2.map (fun p => (p.1, p.2.bind coerce)), dropnaS c.2,
   artifactPath output [basename a.1, acp.1, basename m.1, c.1],
   [basename a.1, acp.1, basename m.1, c.1]⟩

/-! ### Concrete fixtures for examples and witnesses -/

/-- Two groups A, B with one sample each. -/
def csAB : List (String × String) := [("a1", "A"), ("b1", "B")]

/-- Three groups A, B, C with one sample each. -/
def csABC : List (String × String) := [("a1", "A"), ("b1", "B"), ("c1", "C")]

/-- Backend returning p = 0.02 on every pair. -/
def m002 : List String → List String → TestRes :=
  fun _ _ => ⟨some (mkRat 1 50), some 1, [1], [2]⟩

/-- Backend returning p = 0.01 on (A, B), p = 0.05 on (A, C), NaN on the
rest. -/
def mPair2 : List String → List String → TestRes :=
  fun xs ys =>
    if xs == ["a1"] && ys == ["b1"] then ⟨some (mkRat 1 100), some 1, [1], [1]⟩
    else if xs == ["a1"] && ys == ["c1"] then ⟨some (mkRat 1 20), some 1, [1], [1]⟩
    else ⟨none, none, [], []⟩

/-- Backend returning p = 0.9 on every pair. -/
def m09 : List String → List String → TestRes :=
  fun _ _ => ⟨some (mkRat 9 10), some 1, [1], [1]⟩

/-- Backend returning p = 0.5 on every pair. -/
def mHalf : List String → List String → TestRes :=
  fun _ _ => ⟨some (mkRat 1 2), some 1, [1], [2]⟩

/-- Backend returning a NaN p-value on every pair. -/
def mNaN : List String → List String → TestRes :=
  fun _ _ => ⟨none, some 1, [], []⟩

/-- A multivariate backend fixture. -/
def mBetaU : Nat → MData Unit → List String → List String → TestRes :=
  fun _ _ _ _ => ⟨some (mkRat 1 50), some 1, [1], [2]⟩

/-- A univariate backend fixture over `MData`. -/
def mAlphaU : MData Unit → List String → List String → TestRes :=
  fun _ _ _ => ⟨some (mkRat 1 50), some 1, [1], [2]⟩

/-- A second, different univariate backend fixture. -/
def mAlphaU2 : MData Unit → List String → List String → TestRes :=
  fun _ _ _ => ⟨none, none, [], []⟩

/-- The §8 partition scenario: groups A (3 samples), B (2 samples) and two
samples whose grouping value is missing (so any further group has zero
members after filtering). -/
def ex6 : Series :=
  [("s1", some "A"), ("s2", some "A"), ("s3", some "A"),
   ("s4", some "B"), ("s5", some "B"), ("s6", none), ("s7", none)]

/-- One mapping table with one grouping column. -/
def msW : List (String × TableDF) :=
  [("map.tsv", [("Treatment", [("s1", some "control"), ("s2", some "drug")])])]

/-- One alpha table with one metric column. -/
def alsW : List (String × TableDF) :=
  [("alpha.tsv", [("shannon", [("s1", some "4"), ("s2", some "5")])])]

/-- One beta matrix (opaque payload). -/
def bsW : List (String × Unit) := [("dm.txt", ())]

/-- A numeric coercion fixture. -/
def coerceW : String → Option ℚ := fun _ => some 1

/-- The comparator value at a concrete task, for inspecting its return
value. -/
def exC9 : (String × Results) × List Results :=
  processColumn (δ := Unit) true false 9 mBetaU (fun _ => m002)
    (MData.alphaD []) csAB "out/x.pickle" ["div.tsv", "shannon", "map.tsv", "col"]

/-! ### Order lemmas for the string comparator -/

theorem clLe_refl (l : List Char) : clLe l l = true := by
  induction l with
  | nil => rfl
  | cons a t ih => simp [clLe, ih]

theorem clLe_total (l₁ l₂ : List Char) : clLe l₁ l₂ = true ∨ clLe l₂ l₁ = true := by
  induction l₁ generalizing l₂ with
  | nil => left; rfl
  | cons a t ih =>
    cases l₂ with
    | nil => right; rfl
    | cons b s =>
      rcases lt_trichotomy a b with h | h | h
      · left; simp [clLe, h]
      · subst h
        rcases ih s with h2 | h2
        · left; simp [clLe, h2]
        · right; simp [clLe, h2]
      · right; simp [clLe, h]

theorem clLe_trans {l₁ l₂ l₃ : List Char} (h12 : clLe l₁ l₂ = true)
    (h23 : clLe l₂ l₃ = true) : clLe l₁ l₃ = true := by
  induction l₁ generalizing l₂ l₃ with
  | nil => rfl
  | cons a t ih =>
    cases l₂ with
    | nil => exact absurd h12 (by simp [clLe])
    | cons b s =>
      cases l₃ with
      | nil => exact absurd h23 (by simp [clLe])
      | cons c u =>
        rcases lt_trichotomy a b with hab | hab | hab
        · rcases lt_trichotomy b c with hbc | hbc | hbc
          · simp [clLe, hab.trans hbc]
          · subst hbc; simp [clLe, hab]
          · simp [clLe, asymm hbc, hbc] at h23
        · subst hab
          rcases lt_trichotomy a c with hac | hac | hac
          · simp [clLe, hac]
          · subst hac
            simp only [clLe, lt_self_iff_false, if_false] at h12 h23 ⊢
            exact ih h12 h23
          · simp [clLe, asymm hac, hac] at h23
        · simp [clLe, asymm hab, hab] at h12

theorem clLe_antisymm : {l₁ l₂ : List Char} → clLe l₁ l₂ = true →
    clLe l₂ l₁ = true → l₁ = l₂ := by
  intro l₁
  induction l₁ with
  | nil =>
    intro l₂ h12 h21
    cases l₂ with
    | nil => rfl
    | cons b s => exact absurd h21 (by simp [clLe])
  | cons a t ih =>
    intro l₂ h12 h21
    cases l₂ with
    | nil => exact absurd h12 (by simp [clLe])
    | cons b s =>
      rcases lt_trichotomy a b with hab | hab | hab
      · simp [clLe, asymm hab, hab] at h21
      · subst hab
        simp only [clLe, lt_self_iff_false, if_false] at h12 h21
        rw [ih h12 h21]
      · simp [clLe, asymm hab, hab] at h12

theorem sLe_total (a b : String) : sLe a b ∨ sLe b a := clLe_total _ _

theorem sLe_trans {a b c : String} : sLe a b → sLe b c → sLe a c := clLe_trans

theorem sLe_antisymm {a b : String} (h1 : sLe a b) (h2 : sLe b a) : a = b :=
  String.ext (clLe_antisymm h1 h2)

theorem sLt_trans {a b c : String} (h1 : sLt a b) (h2 : sLt b c) : sLt a c :=
  ⟨sLe_trans h1.1 h2.1, fun he => h2.2 (sLe_antisymm h2.1 (he ▸ h1.1))⟩

theorem sLt_irrefl (a : String) : ¬ sLt a a := fun h => h.2 rfl

/-! ### Lemmas on the partition -/

theorem mem_groupKeys {cs : List (String × String)} {k : String} :
    k ∈ groupKeys cs ↔ k ∈ cs.map Prod.snd := by
  unfold groupKeys
  rw [(List.perm_insertionSort _ _).mem_iff, List.mem_dedup]

theorem groupKeys_nodup (cs : List (String × String)) :
    (groupKeys cs).Nodup :=
  (List.perm_insertionSort _ _).symm.nodup (List.nodup_dedup _)

theorem groupKeys_sorted_le (cs : List (String × String)) :
    (groupKeys cs).Sorted sLe := by
  haveI : IsTotal String sLe := ⟨sLe_total⟩
  haveI : IsTrans String sLe := ⟨fun a b c => sLe_trans⟩
  exact List.sorted_insertionSort sLe _

theorem groupKeys_pairwise_sLt (cs : List (String × String)) :
    (groupKeys cs).Pairwise sLt :=
  (groupKeys_sorted_le cs).and (groupKeys_nodup cs)

theorem groupIds_ne_nil {cs : List (String × String)} {k : String}
    (h : k ∈ cs.map Prod.snd) : groupIds cs k ≠ [] := by
  rcases List.mem_map.mp h with ⟨p, hp, rfl⟩
  unfold groupIds
  intro hnil
  rw [List.map_eq_nil_iff] at hnil
  have : p ∈ cs.filter (fun q => q.2 == p.2) :=
    List.mem_filter.mpr ⟨hp, by simp⟩
  rw [hnil] at this
  simp at this

theorem mem_dropnaS {s : Series} {i v : String} :
    (i, v) ∈ dropnaS s ↔ (i, some v) ∈ s := by
  unfold dropnaS
  rw [List.mem_filterMap]
  constructor
  · rintro ⟨p, hp, hmap⟩
    cases hv : p.2 with
    | none => rw [hv] at hmap; exact absurd hmap (by simp)
    | some w =>
      rw [hv] at hmap
      have h12 : p.1 = i ∧ w = v := by simpa using hmap
      rw [← h12.1, ← h12.2, ← hv]
      exact hp
  · intro hp
    exact ⟨(i, some v), hp, by simp⟩

/-! ### Lemmas on the pairwise loop -/

theorem scanStep_eq (method : List String → List String → TestRes)
    (cs : List (String × String)) (acc : List ℚ × List Comparison)
    (xy : String × String) :
    scanStep method cs acc xy =
      match pairResult method cs xy with
      | none => acc
      | some cmp => (acc.1 ++ [cmp.pval], acc.2 ++ [cmp]) := by
  unfold scanStep pairResult
  by_cases h : ((method (groupIds cs xy.1) (groupIds cs xy.2)).pval.isNone
      || (method (groupIds cs xy.1) (groupIds cs xy.2)).stat.isNone) = true
  · simp [h]
  · simp [h, mkComp]

theorem foldl_scanStep (method : List String → List String → TestRes)
    (cs : List (String × String)) (ps : List (String × String)) :
    ∀ (q : List ℚ) (c : List Comparison),
      ps.foldl (scanStep method cs) (q, c) =
        (q ++ (ps.filterMap (pairResult method cs)).map Comparison.pval,
         c ++ ps.filterMap (pairResult method cs)) := by
  induction ps with
  | nil => intro q c; simp
  | cons xy tl ih =>
    intro q c
    rw [List.foldl_cons, scanStep_eq]
    cases h : pairResult method cs xy with
    | none => simp [h, ih q c]
    | some cmp => simp [h, ih]

/-- `pairwise_comparisons` is the filterMap of the per-pair results over
the pair list. -/
theorem pairScan_snd (method : List String → List String → TestRes)
    (cs : List (String × String)) :
    (pairScan method cs).2 =
      (combos2 (groupKeys cs)).filterMap (pairResult method cs) := by
  unfold pairScan
  rw [foldl_scanStep]
  simp

/-- `qip` holds exactly the p-values of the surviving comparison records. -/
theorem pairScan_fst (method : List String → List String → TestRes)
    (cs : List (String × String)) :
    (pairScan method cs).1 = ((pairScan method cs).2).map Comparison.pval := by
  rw [pairScan_snd]
  show ((combos2 (groupKeys cs)).foldl (scanStep method cs) ([], [])).1 = _
  rw [foldl_scanStep]
  simp

theorem pairResult_eq_some {method : List String → List String → TestRes}
    {cs : List (String × String)} {xy : String × String} {c : Comparison}
    (h : pairResult method cs xy = some c) :
    c.xlabel = xy.1 ∧ c.ylabel = xy.2 := by
  simp only [pairResult] at h
  split at h
  · exact absurd h (by simp)
  · rw [Option.some.injEq] at h
    subst h
    exact ⟨rfl, rfl⟩

theorem pairResult_none_of_nan {method : List String → List String → TestRes}
    {cs : List (String × String)} {xy : String × String}
    (h : (method (groupIds cs xy.1) (groupIds cs xy.2)).pval.isNone = true ∨
         (method (groupIds cs xy.1) (groupIds cs xy.2)).stat.isNone = true) :
    pairResult method cs xy = none := by
  simp only [pairResult]
  rcases h with h | h <;> simp [h]

/-- Every comparison record's labels come from a pair of the pair list. -/
theorem mem_pairScan_labels {method : List String → List String → TestRes}
    {cs : List (String × String)} {c : Comparison}
    (h : c ∈ (pairScan method cs).2) :
    (c.xlabel, c.ylabel) ∈ combos2 (groupKeys cs) := by
  rw [pairScan_snd] at h
  rcases List.mem_filterMap.mp h with ⟨xy, hxy, hres⟩
  simp only [pairResult] at hres
  split at hres
  · exact absurd hres (by simp)
  · rw [Option.some.injEq] at hres
    subst hres
    simpa [mkComp] using hxy

/-! ### Lemmas on `combos2` -/

theorem combos2_mem {α : Type} {l : List α} {x y : α}
    (h : (x, y) ∈ combos2 l) : x ∈ l ∧ y ∈ l := by
  induction l with
  | nil => simp [combos2] at h
  | cons a tl ih =>
    simp only [combos2, List.mem_append, List.mem_map] at h
    rcases h with ⟨b, hb, heq⟩ | h
    · obtain ⟨rfl, rfl⟩ := Prod.mk.injEq .. ▸ heq
      exact ⟨List.mem_cons_self .., List.mem_cons_of_mem _ hb⟩
    · exact ⟨List.mem_cons_of_mem _ (ih h).1, List.mem_cons_of_mem _ (ih h).2⟩

theorem combos2_length {α : Type} (l : List α) :
    (combos2 l).length = l.length.choose 2 := by
  induction l with
  | nil => rfl
  | cons a tl ih =>
    simp only [combos2, List.length_append, List.length_map, ih,
      List.length_cons]
    rw [Nat.choose_succ_succ, Nat.choose_one_right, Nat.add_comm]

theorem combos2_mem_iff {α : Type} (r : α → α → Prop)
    (htr : ∀ {a b c : α}, r a b → r b c → r a c) (hirr : ∀ a : α, ¬ r a a)
    {l : List α} (hs : l.Pairwise r) {x y : α} :
    (x, y) ∈ combos2 l ↔ x ∈ l ∧ y ∈ l ∧ r x y := by
  induction l with
  | nil => simp [combos2]
  | cons a tl ih =>
    obtain ⟨hlt, htl⟩ := List.pairwise_cons.mp hs
    constructor
    · intro h
      simp only [combos2, List.mem_append, List.mem_map] at h
      rcases h with ⟨b, hb, hbeq⟩ | h
      · obtain ⟨rfl, rfl⟩ := Prod.mk.injEq .. ▸ hbeq
        exact ⟨List.mem_cons_self .., List.mem_cons_of_mem _ hb, hlt _ hb⟩
      · obtain ⟨h1, h2, h3⟩ := (ih htl).mp h
        exact ⟨List.mem_cons_of_mem _ h1, List.mem_cons_of_mem _ h2, h3⟩
    · rintro ⟨hx, hy, hxy⟩
      simp only [combos2, List.mem_append, List.mem_map]
      rcases List.mem_cons.mp hx with rfl | hx2
      · left
        refine ⟨y, ?_, rfl⟩
        rcases List.mem_cons.mp hy with rfl | hy2
        · exact absurd hxy (hirr _)
        · exact hy2
      · right
        rcases List.mem_cons.mp hy with rfl | hy2
        · exact absurd (htr hxy (hlt _ hx2)) (hirr _)
        · exact (ih htl).mpr ⟨hx2, hy2, hxy⟩

theorem combos2_nodup {α : Type} {l : List α} (h : l.Nodup) :
    (combos2 l).Nodup := by
  induction l with
  | nil => simp [combos2]
  | cons a tl ih =>
    have ha : a ∉ tl := (List.nodup_cons.mp h).1
    have htl : tl.Nodup := (List.nodup_cons.mp h).2
    simp only [combos2]
    refine List.Nodup.append ?_ (ih htl) ?_
    · exact htl.map (fun b c hbc => congrArg Prod.snd hbc)
    · intro p hp hq
      rcases List.mem_map.mp hp with ⟨b, _, rfl⟩
      exact ha ((combos2_mem hq).1)

theorem combos2_pairwise_lexLt {l : List String} (hs : l.Pairwise sLt) :
    (combos2 l).Pairwise lexLt := by
  induction l with
  | nil => simp [combos2]
  | cons a tl ih =>
    obtain ⟨hlt, htl⟩ := List.pairwise_cons.mp hs
    simp only [combos2]
    rw [List.pairwise_append]
    refine ⟨?_, ih htl, ?_⟩
    · rw [List.pairwise_map]
      exact htl.imp (fun hbc => Or.inr ⟨rfl, hbc⟩)
    · intro p hp q hq
      rcases List.mem_map.mp hp with ⟨b, _, rfl⟩
      exact Or.inl (hlt _ (combos2_mem hq).1)

theorem count_one_of_nodup {α : Type} [BEq α] [LawfulBEq α] {l : List α}
    {x : α} (hn : l.Nodup) (hm : x ∈ l) : l.count x = 1 := by
  induction l with
  | nil => simp at hm
  | cons a t ih =>
    rcases List.mem_cons.mp hm with rfl | hm2
    · rw [List.count_cons_self]
      rw [List.count_eq_zero.mpr (List.nodup_cons.mp hn).1]
    · have hne : x ≠ a := fun he => (List.nodup_cons.mp hn).1 (he ▸ hm2)
      rw [List.count_cons_of_ne hne, ih (List.nodup_cons.mp hn).2 hm2]

theorem sublist_of_filterMap_map {α β : Type} (f : α → Option β) (g : β → α)
    (l : List α) (h : ∀ a b, f a = some b → g b = a) :
    ((l.filterMap f).map g).Sublist l := by
  induction l with
  | nil => simp
  | cons a t ih =>
    cases hfa : f a with
    | none =>
      rw [List.filterMap_cons, hfa]
      exact ih.cons a
    | some b =>
      rw [List.filterMap_cons, hfa, List.map_cons, h a b hfa]
      exact ih.cons₂ a

/-! ### Lemmas on generators and the cache filter -/

theorem filterMap_ite_some {α β : Type} (f : α → β) (p : β → Bool) (l : List α) :
    (l.filterMap fun a => if p (f a) then some (f a) else none) =
      (l.map f).filter p := by
  induction l with
  | nil => rfl
  | cons a t ih => by_cases h : p (f a) = true <;> simp [h, ih]

theorem filter_flatMap {α β : Type} (l : List α) (g : α → List β) (p : β → Bool) :
    (l.flatMap g).filter p = l.flatMap fun x => (g x).filter p := by
  induction l with
  | nil => rfl
  | cons a t ih => simp [List.filter_append, ih]

theorem flatMap_congr {α β : Type} {l : List α} {f g : α → List β}
    (h : ∀ a ∈ l, f a = g a) : l.flatMap f = l.flatMap g := by
  induction l with
  | nil => rfl
  | cons a t ih =>
    simp only [List.flatMap_cons, h a (List.mem_cons_self ..),
      ih (fun x hx => h x (List.mem_cons_of_mem _ hx))]

/-- With overwrite set the beta generator enumerates every combination. -/
theorem generateBetas_true {δ : Type} (fsEx : String → Bool) (output : String)
    (perm : Nat) (bs : List (String × δ)) (ms : List (String × TableDF)) :
    generateBetas fsEx true output perm bs ms =
      bs.flatMap fun b => ms.flatMap fun m =>
        m.2.map (betaTaskOf output perm b m) := by
  unfold generateBetas
  refine flatMap_congr (fun b _ => ?_)
  refine flatMap_congr (fun m _ => ?_)
  show (m.2.filterMap fun c =>
      if (fun t : BetaTask δ => !fsEx t.fname || true) (betaTaskOf output perm b m c)
      then some (betaTaskOf output perm b m c) else none) = _
  rw [filterMap_ite_some (betaTaskOf output perm b m)
    (fun t => !fsEx t.fname || true)]
  simp

/-- The beta generator is the full enumeration filtered by the cache
condition. -/
theorem generateBetas_eq_filter {δ : Type} (fsEx : String → Bool)
    (ow : Bool) (output : String) (perm : Nat)
    (bs : List (String × δ)) (ms : List (String × TableDF)) :
    generateBetas fsEx ow output perm bs ms =
      (generateBetas fsEx true output perm bs ms).filter
        (fun t => !fsEx t.fname || ow) := by
  rw [generateBetas_true]
  unfold generateBetas
  rw [filter_flatMap]
  refine flatMap_congr (fun b _ => ?_)
  rw [filter_flatMap]
  refine flatMap_congr (fun m _ => ?_)
  show (m.2.filterMap fun c =>
      if (fun t : BetaTask δ => !fsEx t.fname || ow) (betaTaskOf output perm b m c)
      then some (betaTaskOf output perm b m c) else none) = _
  rw [filterMap_ite_some (betaTaskOf output perm b m)
    (fun t => !fsEx t.fname || ow)]

/-- With overwrite set the alpha generator enumerates every combination. -/
theorem generateAlphas_true (coerce : String → Option ℚ)
    (fsEx : String → Bool) (output : String)
    (als : List (String × TableDF)) (ms : List (String × TableDF)) :
    generateAlphas coerce fsEx true output als ms =
      als.flatMap fun a => a.2.flatMap fun acp => ms.flatMap fun m =>
        m.2.map (alphaTaskOf coerce output a acp m) := by
  unfold generateAlphas
  refine flatMap_congr (fun a _ => ?_)
  refine flatMap_congr (fun acp _ => ?_)
  refine flatMap_congr (fun m _ => ?_)
  show (m.2.filterMap fun c =>
      if (fun t : AlphaTask => !fsEx t.fname || true) (alphaTaskOf coerce output a acp m c)
      then some (alphaTaskOf coerce output a acp m c) else none) = _
  rw [filterMap_ite_some (alphaTaskOf coerce output a acp m)
    (fun t => !fsEx t.fname || true)]
  simp

/-- The alpha generator is the full enumeration filtered by the cache
condition. -/
theorem generateAlphas_eq_filter (coerce : String → Option ℚ)
    (fsEx : String → Bool) (ow : Bool) (output : String)
    (als : List (String × TableDF)) (ms : List (String × TableDF)) :
    generateAlphas coerce fsEx ow output als ms =
      (generateAlphas coerce fsEx true output als ms).filter
        (fun t => !fsEx t.fname || ow) := by
  rw [generateAlphas_true]
  unfold generateAlphas
  rw [filter_flatMap]
  refine flatMap_congr (fun a _ => ?_)
  rw [filter_flatMap]
  refine flatMap_congr (fun acp _ => ?_)
  rw [filter_flatMap]
  refine flatMap_congr (fun m _ => ?_)
  show (m.2.filterMap fun c =>
      if (fun t : AlphaTask => !fsEx t.fname || ow) (alphaTaskOf coerce output a acp m c)
      then some (alphaTaskOf coerce output a acp m c) else none) = _
  rw [filterMap_ite_some (alphaTaskOf coerce output a acp m)
    (fun t => !fsEx t.fname || ow)]

/-- The unfiltered enumeration does not depend on the filesystem. -/
theorem generateBetas_true_indep {δ : Type} (fsEx fsEx' : String → Bool)
    (output : String) (perm : Nat) (bs : List (String × δ))
    (ms : List (String × TableDF)) :
    generateBetas fsEx true output perm bs ms =
      generateBetas fsEx' true output perm bs ms := by
  rw [generateBetas_true, generateBetas_true]

theorem generateAlphas_true_indep (coerce : String → Option ℚ)
    (fsEx fsEx' : String → Bool) (output : String)
    (als : List (String × TableDF)) (ms : List (String × TableDF)) :
    generateAlphas coerce fsEx true output als ms =
      generateAlphas coerce fsEx' true output als ms := by
  rw [generateAlphas_true, generateAlphas_true]

/-! ### Lemmas on `processColumn` projections -/

/-- The artifact format tag is the truthiness of the `alphas` argument. -/
theorem processColumn_isAlphaFmt {δ : Type} (aT bT : Bool) (perm : Nat)
    (bM : Nat → MData δ → List String → List String → TestRes)
    (aM : MData δ → List String → List String → TestRes)
    (data : MData δ) (cs : List (String × String)) (fname : String)
    (finfo : List String) :
    ((processColumn aT bT perm bM aM data cs fname finfo).1.2).isAlphaFmt = aT := by
  by_cases h : aT = true <;> simp [processColumn, Results.isAlphaFmt, h]

/-- With `betas` truthy the univariate backend is irrelevant. -/
theorem processColumn_beta_method {δ : Type} (aT : Bool) (perm : Nat)
    (bM : Nat → MData δ → List String → List String → TestRes)
    (aM aM' : MData δ → List String → List String → TestRes)
    (data : MData δ) (cs : List (String × String)) (fname : String)
    (finfo : List String) :
    processColumn aT true perm bM aM data cs fname finfo =
      processColumn aT true perm bM aM' data cs fname finfo := rfl

/-- The pooled p-value of the assembled artifact. -/
theorem pooled_formula {δ : Type} (aT bT : Bool) (perm : Nat)
    (bM : Nat → MData δ → List String → List String → TestRes)
    (aM : MData δ → List String → List String → TestRes)
    (data : MData δ) (cs : List (String × String)) (fname : String)
    (finfo : List String) :
    Results.pooledOf ((processColumn aT bT perm bM aM data cs fname finfo).1.2) =
      (if ((pairScan (if bT then bM perm data else aM data) cs).1).isEmpty
       then none
       else some ((((pairScan (if bT then bM perm data else aM data) cs).1).length : ℚ) *
         npMin ((pairScan (if bT then bM perm data else aM data) cs).1))) := by
  by_cases h : aT = true <;> simp [processColumn, Results.pooledOf, h]

/-- In beta mode (truthy beta list) the run maps the beta generator's
tasks through the comparator. -/
theorem effectSize_beta {δ : Type} (fsEx : String → Bool) (ow : Bool)
    (output : String) (perm : Nat) (coerce : String → Option ℚ)
    (bM : Nat → MData δ → List String → List String → TestRes)
    (aM : MData δ → List String → List String → TestRes)
    (ms als : List (String × TableDF)) (bs : List (String × δ))
    (hbse : bs.isEmpty = false) :
    effectSize fsEx ow output perm coerce bM aM ms als bs =
      (generateBetas fsEx ow output perm bs ms).map
        (fun t => processColumn (!als.isEmpty) true perm bM aM
          (MData.betaD t.data) t.cseries t.fname t.finfo) := by
  unfold effectSize
  rw [hbse]
  rfl

/-- In alpha mode (empty beta list) the run maps the alpha generator's
tasks through the comparator. -/
theorem effectSize_alpha {δ : Type} (fsEx : String → Bool) (ow : Bool)
    (output : String) (perm : Nat) (coerce : String → Option ℚ)
    (bM : Nat → MData δ → List String → List String → TestRes)
    (aM : MData δ → List String → List String → TestRes)
    (ms als : List (String × TableDF)) (bs : List (String × δ))
    (hbse : bs.isEmpty = true) :
    effectSize fsEx ow output perm coerce bM aM ms als bs =
      (generateAlphas coerce fsEx ow output als ms).map
        (fun t => processColumn (!als.isEmpty) false perm bM aM
          (MData.alphaD t.data) t.cseries t.fname t.finfo) := by
  unfold effectSize
  rw [hbse]
  rfl

/-! ### The claims -/

/-- C1: for every task, the pooled p-value of the Result artifact equals
the number of valid (non-discarded) group pairs multiplied by the minimum
p-value across those pairs, with no clamping to 1.0, and it is `none` when
zero valid pairs exist; one valid pair with p = 0.02 pools to 0.02, two
valid pairs with p-values {0.01, 0.05} pool to 2 × 0.01 = 0.02, three
valid pairs with p = 0.9 pool to the raw product 2.7 > 1, and zero valid
pairs pool to `none`. -/
theorem claim_C1_pooled :
    (∀ (δ : Type) (aT bT : Bool) (perm : Nat)
       (bM : Nat → MData δ → List String → List String → TestRes)
       (aM : MData δ → List String → List String → TestRes)
       (data : MData δ) (cs : List (String × String)) (fname : String)
       (finfo : List String),
       Results.pooledOf ((processColumn aT bT perm bM aM data cs fname finfo).1.2) =
         (if ((pairScan (if bT then bM perm data else aM data) cs).1).isEmpty
          then none
          else some ((((pairScan (if bT then bM perm data else aM data) cs).1).length : ℚ) *
            npMin ((pairScan (if bT then bM perm data else aM data) cs).1)))) ∧
    Results.pooledOf ((processColumn true false 9 mBetaU (fun _ => m002)
        (MData.alphaD []) csAB "f" ["d", "a", "m", "c"]).1.2) = some (mkRat 1 50) ∧
    Results.pooledOf ((processColumn true false 9 mBetaU (fun _ => mPair2)
        (MData.alphaD []) csABC "f" ["d", "a", "m", "c"]).1.2) = some (mkRat 1 50) ∧
    (Results.pooledOf ((processColumn true false 9 mBetaU (fun _ => m09)
        (MData.alphaD []) csABC "f" ["d", "a", "m", "c"]).1.2) = some (mkRat 27 10) ∧
      (1 : ℚ) < mkRat 27 10) ∧
    Results.pooledOf ((processColumn true false 9 mBetaU (fun _ => mNaN)
        (MData.alphaD []) csAB "f" ["d", "a", "m", "c"]).1.2) = none := by
  refine ⟨fun δ aT bT perm bM aM data cs fname finfo =>
    pooled_formula aT bT perm bM aM data cs fname finfo, ?_, ?_, ⟨?_, ?_⟩, rfl⟩
  · rw [pooled_formula]
    rw [show (pairScan (if false then mBetaU 9 (MData.alphaD [] : MData Unit)
        else (fun _ => m002) (MData.alphaD [] : MData Unit)) csAB).1 =
      [mkRat 1 50] from rfl]
    simp [npMin, List.min?]
  · rw [pooled_formula]
    rw [show (pairScan (if false then mBetaU 9 (MData.alphaD [] : MData Unit)
        else (fun _ => mPair2) (MData.alphaD [] : MData Unit)) csABC).1 =
      [mkRat 1 100, mkRat 1 20] from rfl]
    simp [npMin, List.min?]
    norm_num [mkRat, Rat.normalize, Rat.maybeNormalize]
  · rw [pooled_formula]
    rw [show (pairScan (if false then mBetaU 9 (MData.alphaD [] : MData Unit)
        else (fun _ => m09) (MData.alphaD [] : MData Unit)) csABC).1 =
      [mkRat 9 10, mkRat 9 10, mkRat 9 10] from rfl]
    simp [npMin, List.min?, min_self]
    norm_num [mkRat, Rat.normalize, Rat.maybeNormalize]
  · norm_num [mkRat, Rat.normalize, Rat.maybeNormalize]

/-- C2 counterexample: two descriptor tuples that differ in their fields
but whose dot-joined strings coincide (fields may contain the separator)
receive the same task identifier. -/
theorem claim_C2_cex :
    (["a.b", "c", "col", "10"] : List String) ≠ ["a", "b.c", "col", "10"] ∧
    taskName ["a.b", "c", "col", "10"] = taskName ["a", "b.c", "col", "10"] :=
  ⟨by decide, rfl⟩

/-- C2 amended: identical descriptor tuples give identical task
identifiers; more generally equality of the dot-joined descriptor string
forces equality of identifiers, so descriptors differing in a field can
still collide when their joins coincide. -/
theorem claim_C2_amended (f1 f2 : List String) :
    (f1 = f2 → taskName f1 = taskName f2) ∧
    (String.intercalate "." f1 = String.intercalate "." f2 →
      taskName f1 = taskName f2) := by
  constructor
  · intro h; rw [h]
  · intro h; unfold taskName; rw [h]

theorem claim_C2_witness :
    String.intercalate "." ["a.b", "c", "col", "10"] =
      String.intercalate "." ["a", "b.c", "col", "10"] ∧
    taskName ["a.b", "c", "col", "10"] = taskName ["a", "b.c", "col", "10"] :=
  ⟨by decide, (claim_C2_amended ["a.b", "c", "col", "10"]
    ["a", "b.c", "col", "10"]).2 (by decide)⟩

/-- C3: a candidate combination's task is yielded iff it is in the full
enumeration (the generator with overwrite set) and its artifact path does
not exist or overwrite is set — for both generators. -/
theorem claim_C3_cache_aware {δ : Type} (fsEx : String → Bool) (ow : Bool)
    (output : String) (perm : Nat) (coerce : String → Option ℚ)
    (bs : List (String × δ)) (als ms : List (String × TableDF))
    (t : BetaTask δ) (u : AlphaTask) :
    (t ∈ generateBetas fsEx ow output perm bs ms ↔
      t ∈ generateBetas fsEx true output perm bs ms ∧
        (!fsEx t.fname || ow) = true) ∧
    (u ∈ generateAlphas coerce fsEx ow output als ms ↔
      u ∈ generateAlphas coerce fsEx true output als ms ∧
        (!fsEx u.fname || ow) = true) := by
  constructor
  · rw [generateBetas_eq_filter fsEx ow, List.mem_filter]
  · rw [generateAlphas_eq_filter coerce fsEx ow, List.mem_filter]

/-- C4: with overwrite disabled, if the first run's artifacts are all on
disk and no file disappears, a second run generates zero tasks and writes
nothing. -/
theorem claim_C4_idempotent {δ : Type} (fsEx fsEx' : String → Bool)
    (output : String) (perm : Nat) (coerce : String → Option ℚ)
    (bM : Nat → MData δ → List String → List String → TestRes)
    (aM : MData δ → List String → List String → TestRes)
    (ms als : List (String × TableDF)) (bs : List (String × δ))
    (h1 : ∀ w ∈ effectSize fsEx false output perm coerce bM aM ms als bs,
      fsEx' w.1.1 = true)
    (h2 : ∀ p, fsEx p = true → fsEx' p = true) :
    effectSize fsEx' false output perm coerce bM aM ms als bs = [] ∧
    (bs ≠ [] → generateBetas fsEx' false output perm bs ms = []) ∧
    (bs = [] → generateAlphas coerce fsEx' false output als ms = []) := by
  have hbeta : bs ≠ [] → generateBetas fsEx' false output perm bs ms = [] := by
    intro hne
    have hbse : bs.isEmpty = false := by
      cases bs with
      | nil => exact absurd rfl hne
      | cons x xs => rfl
    rw [generateBetas_eq_filter, List.filter_eq_nil_iff]
    intro t ht
    rw [generateBetas_true_indep fsEx' fsEx] at ht
    by_cases hf : fsEx t.fname = true
    · simp [h2 _ hf]
    · have hffalse : fsEx t.fname = false := by
        cases hx : fsEx t.fname
        · rfl
        · exact absurd hx hf
      have htf : t ∈ generateBetas fsEx false output perm bs ms := by
        rw [generateBetas_eq_filter fsEx false, List.mem_filter]
        exact ⟨ht, by simp [hffalse]⟩
      have hmem : (processColumn (!als.isEmpty) true perm bM aM
          (MData.betaD t.data) t.cseries t.fname t.finfo) ∈
          effectSize fsEx false output perm coerce bM aM ms als bs := by
        rw [effectSize_beta fsEx false output perm coerce bM aM ms als bs hbse]
        exact List.mem_map_of_mem _ htf
      have hw' : fsEx' t.fname = true := h1 _ hmem
      simp [hw']
  have halpha : bs = [] → generateAlphas coerce fsEx' false output als ms = [] := by
    intro hne
    subst hne
    rw [generateAlphas_eq_filter, List.filter_eq_nil_iff]
    intro u hu
    rw [generateAlphas_true_indep coerce fsEx' fsEx] at hu
    by_cases hf : fsEx u.fname = true
    · simp [h2 _ hf]
    · have hffalse : fsEx u.fname = false := by
        cases hx : fsEx u.fname
        · rfl
        · exact absurd hx hf
      have huf : u ∈ generateAlphas coerce fsEx false output als ms := by
        rw [generateAlphas_eq_filter coerce fsEx false, List.mem_filter]
        exact ⟨hu, by simp [hffalse]⟩
      have hmem : (processColumn (!als.isEmpty) false perm bM aM
          (MData.alphaD u.data) u.cseries u.fname u.finfo) ∈
          effectSize fsEx false output perm coerce bM aM ms als [] := by
        rw [effectSize_alpha fsEx false output perm coerce bM aM ms als [] rfl]
        exact List.mem_map_of_mem _ huf
      have hw' : fsEx' u.fname = true := h1 _ hmem
      simp [hw']
  refine ⟨?_, hbeta, halpha⟩
  by_cases hne : bs = []
  · rw [effectSize_alpha fsEx' false output perm coerce bM aM ms als bs
      (by rw [hne]; rfl), halpha hne]
    rfl
  · have hbse : bs.isEmpty = false := by
      cases bs with
      | nil => exact absurd rfl hne
      | cons x xs => rfl
    rw [effectSize_beta fsEx' false output perm coerce bM aM ms als bs hbse,
      hbeta hne]
    rfl

theorem claim_C4_witness :
    effectSize (δ := Unit) (fun _ => true) false "out" 10 coerceW mBetaU
      mAlphaU msW alsW bsW = [] :=
  (claim_C4_idempotent (fun _ => false) (fun _ => true) "out" 10 coerceW
    mBetaU mAlphaU msW alsW bsW (fun w _ => rfl) (fun p _ => rfl)).1

/-- C5: a group pair whose backend returns a NaN p-value or NaN statistic
contributes zero Comparison records, and pooling draws exactly on the
p-values of the surviving records (so the pair is excluded from pooling);
the pair is skipped silently, the task continues. -/
theorem claim_C5_nan_discard (method : List String → List String → TestRes)
    (cs : List (String × String)) (x y : String)
    (hmem : (x, y) ∈ combos2 (groupKeys cs))
    (hnan : (method (groupIds cs x) (groupIds cs y)).pval.isNone = true ∨
            (method (groupIds cs x) (groupIds cs y)).stat.isNone = true) :
    (∀ c ∈ (pairScan method cs).2, ¬(c.xlabel = x ∧ c.ylabel = y)) ∧
    (pairScan method cs).1 = ((pairScan method cs).2).map Comparison.pval := by
  refine ⟨?_, pairScan_fst method cs⟩
  rintro c hc ⟨hcx, hcy⟩
  rw [pairScan_snd] at hc
  rcases List.mem_filterMap.mp hc with ⟨xy, hxy, hres⟩
  obtain ⟨h1, h2⟩ := pairResult_eq_some hres
  have hxyeq : xy = (x, y) := by rw [← hcx, ← hcy, h1, h2]
  rw [hxyeq, pairResult_none_of_nan hnan] at hres
  exact Option.noConfusion hres

theorem claim_C5_witness :
    (("A", "B") ∈ combos2 (groupKeys csAB)) ∧
    ((mNaN (groupIds csAB "A") (groupIds csAB "B")).pval.isNone = true) ∧
    (pairScan mNaN csAB).1 = ((pairScan mNaN csAB).2).map Comparison.pval :=
  ⟨by decide, by decide,
   (claim_C5_nan_discard mNaN csAB "A" "B" (by decide) (Or.inl (by decide))).2⟩

/-- C6: a group value with zero members after missing-value filtering is
absent from the partition (keys come only from present values, and every
key's group is nonempty); in the §8 scenario (A×3, B×2, two missing) the
partition is exactly {A, B}, one pairwise comparison is enumerated, and no
Comparison record mentions a third group C. -/
theorem claim_C6_empty_groups :
    (∀ (s : Series) (k : String),
       k ∈ groupKeys (dropnaS s) →
         groupIds (dropnaS s) k ≠ [] ∧ ∃ i, (i, some k) ∈ s) ∧
    (∀ (s : Series) (k : String),
       (¬ ∃ i, (i, some k) ∈ s) → k ∉ groupKeys (dropnaS s)) ∧
    groupKeys (dropnaS ex6) = ["A", "B"] ∧
    (combos2 (groupKeys (dropnaS ex6))).length = 1 ∧
    (∀ (method : List String → List String → TestRes),
       ∀ c ∈ (pairScan method (dropnaS ex6)).2,
         c.xlabel ≠ "C" ∧ c.ylabel ≠ "C") := by
  have hpart : ∀ (s : Series) (k : String),
      k ∈ groupKeys (dropnaS s) →
        groupIds (dropnaS s) k ≠ [] ∧ ∃ i, (i, some k) ∈ s := by
    intro s k hk
    have hk' : k ∈ (dropnaS s).map Prod.snd := mem_groupKeys.mp hk
    refine ⟨groupIds_ne_nil hk', ?_⟩
    rcases List.mem_map.mp hk' with ⟨p, hp, rfl⟩
    exact ⟨p.1, mem_dropnaS.mp hp⟩
  refine ⟨hpart, ?_, by decide, by decide, ?_⟩
  · intro s k hn hk
    exact hn (hpart s k hk).2
  · intro method c hc
    have h := mem_pairScan_labels hc
    rw [show combos2 (groupKeys (dropnaS ex6)) = [("A", "B")] from by decide] at h
    have heq : (c.xlabel, c.ylabel) = ("A", "B") := List.mem_singleton.mp h
    have hx : c.xlabel = "A" := congrArg Prod.fst heq
    have hy : c.ylabel = "B" := congrArg Prod.snd heq
    exact ⟨by rw [hx]; decide, by rw [hy]; decide⟩

theorem claim_C6_witness :
    "A" ∈ groupKeys (dropnaS ex6) ∧ groupIds (dropnaS ex6) "A" ≠ [] :=
  ⟨by decide, (claim_C6_empty_groups.1 ex6 "A" (by decide)).1⟩

/-- C7: the pair list enumerates each unordered pair of distinct partition
keys exactly once — n(n−1)/2 pairs, membership characterized by the sorted
order, counts 1 and 0 for the two orientations — and the surviving pairs
contribute exactly the Comparison records
(pval, x, len(xval), var(xval), mean(xval), y, len(yval), var(yval),
mean(yval)) in the filterMap of the backend over that pair list. -/
theorem claim_C7_all_pairs (method : List String → List String → TestRes)
    (cs : List (String × String)) :
    (combos2 (groupKeys cs)).length =
      (groupKeys cs).length * ((groupKeys cs).length - 1) / 2 ∧
    (∀ a b : String,
       ((a, b) ∈ combos2 (groupKeys cs) ↔
         a ∈ groupKeys cs ∧ b ∈ groupKeys cs ∧ sLt a b)) ∧
    (∀ a b : String, a ∈ groupKeys cs → b ∈ groupKeys cs → sLt a b →
       (combos2 (groupKeys cs)).count (a, b) = 1 ∧
       (combos2 (groupKeys cs)).count (b, a) = 0) ∧
    (pairScan method cs).2 = (combos2 (groupKeys cs)).filterMap (fun xy =>
       let r := method (groupIds cs xy.1) (groupIds cs xy.2)
       if r.pval.isNone || r.stat.isNone then none
       else some ⟨r.pval.getD 0, xy.1, r.xval.length, npVar r.xval,
                  npMean r.xval, xy.2, r.yval.length, npVar r.yval,
                  npMean r.yval⟩) := by
  have hmemiff : ∀ a b : String,
      ((a, b) ∈ combos2 (groupKeys cs) ↔
        a ∈ groupKeys cs ∧ b ∈ groupKeys cs ∧ sLt a b) := fun a b =>
    combos2_mem_iff sLt (fun h1 h2 => sLt_trans h1 h2) sLt_irrefl
      (groupKeys_pairwise_sLt cs)
  refine ⟨?_, hmemiff, ?_, ?_⟩
  · rw [combos2_length, Nat.choose_two_right]
  · intro a b ha hb hab
    constructor
    · exact count_one_of_nodup (combos2_nodup (groupKeys_nodup cs))
        ((hmemiff a b).mpr ⟨ha, hb, hab⟩)
    · rw [List.count_eq_zero]
      intro hmem
      obtain ⟨_, _, hba⟩ := (hmemiff b a).mp hmem
      exact sLt_irrefl a (sLt_trans hab hba)
  · rw [pairScan_snd]
    rfl

theorem claim_C7_witness :
    "A" ∈ groupKeys csAB ∧ "B" ∈ groupKeys csAB ∧ sLt "A" "B" ∧
    (combos2 (groupKeys csAB)).count ("A", "B") = 1 ∧
    (combos2 (groupKeys csAB)).count ("B", "A") = 0 :=
  ⟨by decide, by decide, by decide,
   (claim_C7_all_pairs mHalf csAB).2.2.1 "A" "B" (by decide) (by decide)
     (by decide)⟩

/-- C8 counterexample: a run supplied with both alpha and beta paths runs
in beta mode but writes its artifact in the alpha field layout (the
unloaded alpha path list stays truthy inside the comparator). -/
theorem claim_C8_cex :
    ((effectSize (δ := Unit) (fun _ => false) false "out" 10 coerceW
        mBetaU mAlphaU msW alsW bsW).map (fun w => (w.1.2).isAlphaFmt)) =
      [true] ∧
    alsW ≠ [] ∧ bsW ≠ [] :=
  ⟨rfl, by decide, by decide⟩

/-- C8 amended: with a truthy beta list the whole run is beta mode — its
output does not depend on the univariate backend — but each artifact is
assembled in the alpha field layout exactly when the alpha path list is
nonempty (beta layout only when no alpha paths were supplied). -/
theorem claim_C8_amended {δ : Type} (fsEx : String → Bool) (ow : Bool)
    (output : String) (perm : Nat) (coerce : String → Option ℚ)
    (bM : Nat → MData δ → List String → List String → TestRes)
    (aM aM' : MData δ → List String → List String → TestRes)
    (ms als : List (String × TableDF)) (bs : List (String × δ))
    (hb : bs ≠ []) :
    effectSize fsEx ow output perm coerce bM aM ms als bs =
      effectSize fsEx ow output perm coerce bM aM' ms als bs ∧
    (∀ w ∈ effectSize fsEx ow output perm coerce bM aM ms als bs,
       (w.1.2).isAlphaFmt = !als.isEmpty) := by
  have hbse : bs.isEmpty = false := by
    cases bs with
    | nil => exact absurd rfl hb
    | cons x xs => rfl
  constructor
  · rw [effectSize_beta fsEx ow output perm coerce bM aM ms als bs hbse,
        effectSize_beta fsEx ow output perm coerce bM aM' ms als bs hbse]
    exact List.map_congr_left (fun t _ =>
      processColumn_beta_method (!als.isEmpty) perm bM aM aM'
        (MData.betaD t.data) t.cseries t.fname t.finfo)
  · intro w hw
    rw [effectSize_beta fsEx ow output perm coerce bM aM ms als bs hbse] at hw
    rcases List.mem_map.mp hw with ⟨t, _, rfl⟩
    exact processColumn_isAlphaFmt (!als.isEmpty) true perm bM aM
      (MData.betaD t.data) t.cseries t.fname t.finfo

theorem claim_C8_witness :
    bsW ≠ [] ∧
    effectSize (δ := Unit) (fun _ => false) false "out" 10 coerceW mBetaU
        mAlphaU msW alsW bsW =
      effectSize (δ := Unit) (fun _ => false) false "out" 10 coerceW mBetaU
        mAlphaU2 msW alsW bsW :=
  ⟨by decide,
   (claim_C8_amended (fun _ => false) false "out" 10 coerceW mBetaU mAlphaU
     mAlphaU2 msW alsW bsW (by decide)).1⟩

/-- C9 counterexample: the comparator's return value is the empty list,
not the Result artifact it assembled and persisted. -/
theorem claim_C9_cex : exC9.2 = [] ∧ exC9.2 ≠ [exC9.1.2] :=
  ⟨rfl, fun h => List.noConfusion h⟩

/-- C9 amended: the comparator assembles the Result artifact — descriptor
fields copied from the task's `finfo`, the Comparison list and the pooled
p-value — and pairs it with the task's artifact path for the pickle
write; its return value is the empty list. -/
theorem claim_C9_amended {δ : Type} (aT bT : Bool) (perm : Nat)
    (bM : Nat → MData δ → List String → List String → TestRes)
    (aM : MData δ → List String → List String → TestRes)
    (data : MData δ) (cs : List (String × String)) (fname : String)
    (finfo : List String) :
    (processColumn aT bT perm bM aM data cs fname finfo).2 = [] ∧
    (processColumn aT bT perm bM aM data cs fname finfo).1.1 = fname ∧
    (processColumn aT bT perm bM aM data cs fname finfo).1.2 =
      (let method := if bT then bM perm data else aM data
       let pooled : Option ℚ :=
         if ((pairScan method cs).1).isEmpty then none
         else some ((((pairScan method cs).1).length : ℚ) *
           npMin ((pairScan method cs).1))
       if aT then
         Results.alphaFmt (finfo.getD 0 "") (finfo.getD 1 "")
           (finfo.getD 2 "") (finfo.getD 3 "") (pairScan method cs).2 pooled
       else
         Results.betaFmt (finfo.getD 0 "") (finfo.getD 1 "")
           (finfo.getD 2 "") (finfo.getD 3 "") (pairScan method cs).2 pooled) :=
  ⟨rfl, rfl, rfl⟩

/-- C10: in every Result, each Comparison record's group-A label strictly
precedes its group-B label in the sorted (Python string) order, and the
records' label pairs appear in lexicographic order, because the partition
enumerates keys sorted and pairs are generated in that order. -/
theorem claim_C10_ordering (method : List String → List String → TestRes)
    (cs : List (String × String)) :
    (∀ c ∈ (pairScan method cs).2, sLt c.xlabel c.ylabel) ∧
    ((pairScan method cs).2.map (fun c => (c.xlabel, c.ylabel))).Pairwise lexLt := by
  constructor
  · intro c hc
    have h := mem_pairScan_labels hc
    exact ((combos2_mem_iff sLt (fun h1 h2 => sLt_trans h1 h2) sLt_irrefl
      (groupKeys_pairwise_sLt cs)).mp h).2.2
  · have hsub : ((pairScan method cs).2.map
        (fun c => (c.xlabel, c.ylabel))).Sublist (combos2 (groupKeys cs)) := by
      rw [pairScan_snd]
      refine sublist_of_filterMap_map _ _ _ ?_
      intro xy c hres
      obtain ⟨h1, h2⟩ := pairResult_eq_some hres
      rw [h1, h2]
    exact (combos2_pairwise_lexLt (groupKeys_pairwise_sLt cs)).sublist hsub

theorem claim_C10_witness : sLt "A" "B" :=
  (claim_C10_ordering mHalf csAB).1
    ⟨mkRat 1 2, "A", 1, npVar [1], npMean [1], "B", 1, npVar [2], npMean [2]⟩
    (by exact List.mem_cons_self ..)

end Evident
